import Mathlib

/-!
Verification development for the Universal Data Assistant (UDA) pipeline
scaffold.  The program's core lives in the embedded module sources of
`scaffold.py`: the eight pipeline stages (router, retriever, ranker,
answerer, uncertainty, validator, auditor, supervisor), the citation
formatter, the uncertainty aggregation helper, the graph builder with its
sequential fallback, and the file-backed dead-letter queue.

The shallow embedding below translates those functions into Lean:
Python dicts with optional keys become structures with `Option` fields,
Python floats become `Rat` (all arithmetic in the program is exact at the
values involved), Python strings become `String` with helpers defined over
their underlying `List Char`.
-/

namespace UDA

/-! ## String helpers (models of the Python string primitives the code uses) -/

/-- Model of Python `str.lower` (character-wise lowering; ASCII letters are
the only characters the program's data contains). -/
def lowerStr (s : String) : String :=
  String.mk (s.data.map Char.toLower)

/-- Model of Python `str.split()` with no argument: split on runs of
whitespace, producing no empty tokens. `cur` is the reversed current token. -/
def splitWsAux (cur : List Char) : List Char → List String
  | [] => if cur.isEmpty then [] else [String.mk cur.reverse]
  | c :: rest =>
    if c.isWhitespace then
      if cur.isEmpty then splitWsAux [] rest
      else String.mk cur.reverse :: splitWsAux [] rest
    else splitWsAux (c :: cur) rest

/-- Python `query.split()` on a string. -/
def pySplitWs (s : String) : List String := splitWsAux [] s.data

/-- Count of non-overlapping occurrences of `t` in `l`, scanning left to
right: the core of Python `str.count` (for nonempty `t`). -/
def countOccAux (t : List Char) : List Char → Nat
  | [] => 0
  | c :: rest =>
    if t.isPrefixOf (c :: rest) then 1 + countOccAux t (rest.drop (t.length - 1))
    else countOccAux t rest
termination_by l => l.length
decreasing_by
  · simp only [List.length_drop, List.length_cons]
    omega
  · simp [Nat.lt_succ_self]

/-- Model of Python `s.count(t)` (for the degenerate empty pattern Python
returns `len(s) + 1`). -/
def pyCount (s t : String) : Nat :=
  if t.data.isEmpty then s.length + 1 else countOccAux t.data s.data

/-- Does `t` occur as a contiguous substring of `l`?  Model of Python
`t in s` on strings. -/
def occursIn (t : List Char) : List Char → Bool
  | [] => t.isPrefixOf ([] : List Char)
  | c :: rest => t.isPrefixOf (c :: rest) || occursIn t rest

/-- Python `t in s` for strings. -/
def pyInStr (t s : String) : Bool := occursIn t.data s.data

/-- Python `"\n".join(lines)`. -/
def joinNL : List String → String
  | [] => ""
  | [s] => s
  | s :: rest => s ++ "\n" ++ joinNL rest

/-- Truthiness of Python `line.strip()`: the line contains at least one
non-whitespace character. -/
def hasNonWs (l : List Char) : Bool := l.any (fun c => !c.isWhitespace)

/-! ## Data model -/

/-- One uncertainty span, `{"start": int, "end": int, "entropy": float}`.
The entropy key is optional because `aggregate_uncertainty` reads it with
`s.get("entropy", 0.0)`. -/
structure Span where
  start : Int
  stop : Int
  entropy : Option Rat
  deriving Repr, DecidableEq

/-- Result of `aggregate_uncertainty`: `{"overall": float, "spans": [...]}`. -/
structure Uncert where
  overall : Rat
  spans : List Span
  deriving Repr, DecidableEq

/-- Report `{"faithful": bool, "checks": [...]}` produced by the validator. -/
structure ValidationReport where
  faithful : Bool
  checks : List String
  deriving Repr, DecidableEq

/-- Payload of one audit-trail record (the fields following `"node"`). -/
inductive AuditInfo where
  | intent (s : String)
  | hits (n : Nat)
  | kept (n : Nat)
  | len (n : Nat)
  | overall (q : Rat)
  | faithful (b : Bool)
  | flag (b : Bool)
  | decision (s : String)
  deriving Repr, DecidableEq

/-- One audit-trail record `{"node": name, ...}`. -/
structure AuditRecord where
  node : String
  info : AuditInfo
  deriving Repr, DecidableEq

/-- One evidence item.  Corpus documents carry `doc_id`, `heading`, `text`,
`source_uri` and `security_tags`; the retriever adds `score`.  Keys other
than `text` are read with `.get`, so they are optional here. -/
structure EvidenceItem where
  doc_id : Option String
  heading : Option String
  text : String
  source_uri : Option String
  security_tags : List String
  score : Option Rat
  deriving Repr, DecidableEq

/-- The shared `GraphState` threaded through the stages.  Every field except
the audit trail may be absent (`None`/missing key in Python); the audit trail
is read with default `[]`, which `List` with default `[]` models directly. -/
structure GraphState where
  user_query : Option String
  intent : Option String
  retrieved_evidence : Option (List EvidenceItem)
  draft_answer : Option String
  citations : Option (List String)
  uncertainty : Option Uncert
  validation_reports : Option ValidationReport
  decision : Option String
  audit_trail : List AuditRecord
  deriving Repr, DecidableEq

/-- The initial state the caller constructs: `{"user_query": message}`. -/
def initState (q : String) : GraphState :=
  { user_query := some q
    intent := none
    retrieved_evidence := none
    draft_answer := none
    citations := none
    uncertainty := none
    validation_reports := none
    decision := none
    audit_trail := [] }

/-! ## Citation formatting (`app/utils/citations.py`) -/

/-- Source `e.get("source_uri") or e.get("doc_id", "unknown")`: Python `or` falls
through on a missing key or an empty string. -/
def citeSrc (e : EvidenceItem) : String :=
  match e.source_uri with
  | some s => if s = "" then e.doc_id.getD "unknown" else s
  | none => e.doc_id.getD "unknown"

/-- One citation fragment: `f"[{idx}] {src}"`, plus `" :: heading"` when the
heading is present and truthy. -/
def citeFrag (idx : Nat) (e : EvidenceItem) : String :=
  let frag := "[" ++ toString idx ++ "] " ++ citeSrc e
  match e.heading with
  | some h => if h = "" then frag else frag ++ " :: " ++ h
  | none => frag

/-- The `enumerate(evidence, start=1)` loop of `format_citations`. -/
def formatCitesFrom (idx : Nat) : List EvidenceItem → List String
  | [] => []
  | e :: rest => citeFrag idx e :: formatCitesFrom (idx + 1) rest

/-- Function `format_citations(evidence)`. -/
def format_citations (evidence : List EvidenceItem) : List String :=
  formatCitesFrom 1 evidence

/-! ## Uncertainty aggregation (`app/utils/uncertainty.py`) -/

/-- Function `aggregate_uncertainty(spans)`. -/
def aggregate_uncertainty (spans : List Span) : Uncert :=
  if spans.isEmpty then { overall := 0, spans := [] }
  else
    { overall := (spans.map (fun s => s.entropy.getD 0)).sum / (max spans.length 1 : Nat)
      spans := spans }

/-! ## Retrieval (`app/graph/nodes/retriever.py`) -/

/-- The first document of the module-level `CORPUS`. -/
def corpusDoc1 : EvidenceItem :=
  { doc_id := some "doc-1"
    heading := some "UDA Overview"
    text := "Universal Data Assistant provides precise, cited answers using RAG."
    source_uri := some "internal://docs/uda/overview.md"
    security_tags := ["public"]
    score := none }

/-- The second document of the module-level `CORPUS`. -/
def corpusDoc2 : EvidenceItem :=
  { doc_id := some "doc-2"
    heading := some "Uncertainty Handling"
    text := "UDA tracks token-level uncertainty via logprob entropy and span aggregation."
    source_uri := some "internal://docs/uda/uncertainty.md"
    security_tags := ["public"]
    score := none }

/-- The module-level `CORPUS` of the stub retriever. -/
def CORPUS : List EvidenceItem := [corpusDoc1, corpusDoc2]

/-- Terms `[t for t in query.lower().split() if len(t) > 2]`. -/
def termsOf (query : String) : List String :=
  (pySplitWs (lowerStr query)).filter (fun t => 2 < t.length)

/-- Score `sum(item["text"].lower().count(t) for t in terms)`. -/
def docScore (terms : List String) (text : String) : Nat :=
  (terms.map (fun t => pyCount (lowerStr text) t)).sum

/-- Stable descending insertion on the first (score) component: the element
being inserted goes before the first already-placed element whose score it
meets or exceeds only when strictly appropriate — with `≥` the earlier
element keeps its place on ties, matching Python's stable
`sort(reverse=True, key=score)`. -/
def insertDesc (x : Nat × EvidenceItem) :
    List (Nat × EvidenceItem) → List (Nat × EvidenceItem)
  | [] => [x]
  | y :: ys => if x.1 ≥ y.1 then x :: y :: ys else y :: insertDesc x ys

/-- Stable descending sort by score, modelling Python's stable
`scored.sort(reverse=True, key=lambda x: x[0])`. -/
def sortDesc : List (Nat × EvidenceItem) → List (Nat × EvidenceItem)
  | [] => []
  | x :: xs => insertDesc x (sortDesc xs)

/-- Copy-and-annotate `r = dict(item); r["score"] = float(score)`. -/
def withScore (d : EvidenceItem) (s : Nat) : EvidenceItem :=
  { d with score := some (s : Rat) }

/-- Function `simple_keyword_match(query, k)`. -/
def simple_keyword_match (query : String) (k : Nat) : List EvidenceItem :=
  if query = "" then []
  else
    let terms := termsOf query
    let scored := CORPUS.filterMap (fun item =>
      let score := docScore terms item.text
      if 0 < score then some (score, item) else none)
    ((sortDesc scored).take k).map (fun p => withScore p.2 p.1)

/-! ## The eight stage functions (`app/graph/nodes/*.py`)

Each Python node returns a partial update that the engine merges with
field-level overwrite; since every node's update writes fixed fields, the
merged result is embedded directly as a `GraphState → GraphState` function. -/

def SYNTH_KEYWORDS : List String := ["why", "how", "compare", "design", "tradeoff"]

def POLICY_KEYWORDS : List String := ["policy", "gdpr", "security", "compliance"]

/-- The intent computation inside `router_node`. -/
def routerIntent (q : String) : String :=
  let intent := "lookup"
  let intent := if SYNTH_KEYWORDS.any (fun k => pyInStr k q) then "synthesis" else intent
  let intent := if POLICY_KEYWORDS.any (fun k => pyInStr k q) then "policy" else intent
  intent

def router_node (st : GraphState) : GraphState :=
  let q := lowerStr (st.user_query.getD "")
  let intent := routerIntent q
  { st with
    intent := some intent
    audit_trail := st.audit_trail ++ [⟨"router", .intent intent⟩] }

def retriever_node (st : GraphState) : GraphState :=
  let query := st.user_query.getD ""
  let evidence := simple_keyword_match query 5
  { st with
    retrieved_evidence := some evidence
    audit_trail := st.audit_trail ++ [⟨"retriever", .hits evidence.length⟩] }

def ranker_node (st : GraphState) : GraphState :=
  let ev := (st.retrieved_evidence.getD [])
  { st with
    retrieved_evidence := some ev
    audit_trail := st.audit_trail ++ [⟨"ranker", .kept ev.length⟩] }

/-- The fixed abstention message of `answerer_node` (two adjacent Python
string literals, hence the single joining space). -/
def ABSTENTION : String :=
  "I don't have enough information to answer confidently. Please provide more details or ingest relevant documents."

/-- The grounded draft built when evidence is non-empty. -/
def groundedDraft (query : String) (ev : List EvidenceItem) : String :=
  joinNL (["Q: " ++ query, "A (grounded):"] ++ (ev.take 2).map (fun e => "- " ++ e.text))

def answerer_node (st : GraphState) : GraphState :=
  let query := st.user_query.getD ""
  let ev := st.retrieved_evidence.getD []
  let draft := if ev.isEmpty then ABSTENTION else groundedDraft query ev
  let citations := if ev.isEmpty then [] else format_citations (ev.take 2)
  { st with
    draft_answer := some draft
    citations := some citations
    audit_trail := st.audit_trail ++ [⟨"answerer", .len draft.length⟩] }

def uncertainty_node (st : GraphState) : GraphState :=
  let ev := st.retrieved_evidence.getD []
  let spans : List Span :=
    if !ev.isEmpty then [⟨0, 10, some (1/10 : Rat)⟩]
    else [⟨0, 10, some (6/5 : Rat)⟩]
  let unc := aggregate_uncertainty spans
  { st with
    uncertainty := some unc
    audit_trail := st.audit_trail ++ [⟨"uncertainty", .overall unc.overall⟩] }

def validator_node (st : GraphState) : GraphState :=
  let ev := st.retrieved_evidence.getD []
  let faithful := !ev.isEmpty
  { st with
    validation_reports := some { faithful := faithful, checks := ["stub"] }
    audit_trail := st.audit_trail ++ [⟨"validator", .faithful faithful⟩] }

/-- Read `(state.get("uncertainty") or {}).get("overall", 1.0)`. -/
def uncOf (st : GraphState) : Rat :=
  match st.uncertainty with
  | some u => u.overall
  | none => 1

/-- Read `(state.get("validation_reports") or {}).get("faithful", False)`. -/
def faithfulOf (st : GraphState) : Bool :=
  match st.validation_reports with
  | some v => v.faithful
  | none => false

def auditor_node (st : GraphState) : GraphState :=
  let flag := decide ((8 : Rat)/10 < uncOf st) || !faithfulOf st
  { st with audit_trail := st.audit_trail ++ [⟨"auditor", .flag flag⟩] }

def supervisor_node (st : GraphState) : GraphState :=
  let decision :=
    if faithfulOf st = true ∧ uncOf st < (8 : Rat)/10 then "answer"
    else if faithfulOf st = true then "answer" else "dlq"
  { st with
    decision := some decision
    audit_trail := st.audit_trail ++ [⟨"supervisor", .decision decision⟩] }

/-! ## Pipeline engine (`app/graph/__init__.py`) -/

/-- The fixed node tuple of the `SimplePipeline` fallback. -/
def PIPELINE_NODES : List (GraphState → GraphState) :=
  [router_node, retriever_node, ranker_node, answerer_node,
   uncertainty_node, validator_node, auditor_node, supervisor_node]

/-- Method `SimplePipeline.invoke`: run the nodes in order, merging each update
into the state. -/
def simplePipelineInvoke (st : GraphState) : GraphState :=
  PIPELINE_NODES.foldl (fun s n => n s) st

/-- A named-node graph with directed edges and an entry point: the shape
`build_graph` constructs through the graph backend
(`add_node` / `add_edge` / `set_entry_point`). -/
structure StateGraph where
  nodes : List (String × (GraphState → GraphState))
  edges : List (String × String)
  entry : String

/-- The graph `build_graph` wires: the eight named nodes, the straight
chain of edges ending at the END sentinel, entry at `router`. -/
def builtGraph : StateGraph :=
  { nodes :=
      [("router", router_node), ("retriever", retriever_node),
       ("ranker", ranker_node), ("answerer", answerer_node),
       ("uncertainty", uncertainty_node), ("validator", validator_node),
       ("auditor", auditor_node), ("supervisor", supervisor_node)]
    edges :=
      [("router", "retriever"), ("retriever", "ranker"),
       ("ranker", "answerer"), ("answerer", "uncertainty"),
       ("uncertainty", "validator"), ("validator", "auditor"),
       ("auditor", "supervisor"), ("supervisor", "END")]
    entry := "router" }

def lookupNode (g : StateGraph) (name : String) : Option (GraphState → GraphState) :=
  (g.nodes.find? (fun p => p.1 == name)).map (fun p => p.2)

def nextOf (g : StateGraph) (name : String) : Option String :=
  (g.edges.find? (fun p => p.1 == name)).map (fun p => p.2)

/-- Modelled from the spec: the compiled graph backend itself (the external
graph-execution library) is not part of the repository sources, and §4.1
specifies its contract — `Runnable.invoke` applies each stage in the fixed
order determined by the chain of edges from the entry point, merging each
stage's update; execution stops at the END sentinel.  Fuel bounds the walk. -/
def runFrom (g : StateGraph) : Nat → String → GraphState → GraphState
  | 0, _, st => st
  | fuel + 1, name, st =>
    if name = "END" then st
    else
      match lookupNode g name with
      | none => st
      | some f =>
        let st' := f st
        match nextOf g name with
        | none => st'
        | some nxt => runFrom g fuel nxt st'

/-- Modelled from the spec: invoking the compiled graph walks the chain from
the entry point (nine steps suffice for the eight-node chain plus END). -/
def graphInvoke (g : StateGraph) (st : GraphState) : GraphState :=
  runFrom g (g.nodes.length + 1) g.entry st

/-! ## Dead-letter queue (`app/dlq/queue.py`)

`FileDLQ` keeps a UTF-8 text file; `enqueue` appends `json.dumps(item)` plus
a newline; `stream` re-reads the file, yielding `json.loads(line)` for every
line whose `strip()` is non-empty.  The JSON codec itself is the external
`json` library; it is represented by an `encode`/`decode` pair, assumed (as
the `json` module guarantees for serializable values) to be mutually inverse
with single-line, non-blank output. -/

/-- The DLQ file content, as the list of its characters. -/
structure FileDLQ where
  content : List Char

/-- A fresh DLQ: the file is created empty (`touch`). -/
def FileDLQ.new : FileDLQ := ⟨[]⟩

/-- Method `enqueue(item)`: append one serialized record and a newline. -/
def dlqEnqueue {α : Type} (encode : α → String) (q : FileDLQ) (item : α) : FileDLQ :=
  ⟨q.content ++ ((encode item).data ++ ['\n'])⟩

/-- Split file content into lines at `'\n'` terminators, the way Python file
iteration yields lines (a trailing unterminated fragment is still yielded;
no empty fragment after a final newline). `cur` is the reversed current line. -/
def splitLinesAux (cur : List Char) : List Char → List (List Char)
  | [] => if cur.isEmpty then [] else [cur.reverse]
  | c :: rest =>
    if c = '\n' then cur.reverse :: splitLinesAux [] rest
    else splitLinesAux (c :: cur) rest

/-- Method `stream()`: parse one record per non-blank line, in file order. -/
def dlqStream {α : Type} (decode : String → α) (q : FileDLQ) : List α :=
  ((splitLinesAux [] q.content).filter hasNonWs).map (fun l => decode (String.mk l))

/-! ## Claim-side (spec-worded) definitions used for refinement-style claims -/

/-- Claim wording for the router: intent is `policy` when a policy keyword
occurs (policy overrides synthesis), else `synthesis` when a synthesis
keyword occurs, else `lookup`. -/
def intentSpec (q : String) : String :=
  if POLICY_KEYWORDS.any (fun k => pyInStr k q) then "policy"
  else if SYNTH_KEYWORDS.any (fun k => pyInStr k q) then "synthesis"
  else "lookup"

/-- Claim wording for the citation source: the item's `source_uri`, or its
`doc_id` when `source_uri` is missing, or `"unknown"` when both are
missing. -/
def srcSpec (e : EvidenceItem) : String :=
  match e.source_uri with
  | some s => s
  | none =>
    match e.doc_id with
    | some d => d
    | none => "unknown"

/-- Claim wording for the `i`-th citation string: `"[i] src"`, suffixed with
`" :: heading"` when a heading is present. -/
def citeSpec (i : Nat) (e : EvidenceItem) : String :=
  match e.heading with
  | some h => "[" ++ toString i ++ "] " ++ srcSpec e ++ " :: " ++ h
  | none => "[" ++ toString i ++ "] " ++ srcSpec e

/-- Claim wording for the citation list: one `citeSpec` string per item,
1-based, in item order. -/
def citesSpecFrom (i : Nat) : List EvidenceItem → List String
  | [] => []
  | e :: rest => citeSpec i e :: citesSpecFrom (i + 1) rest

/-- An evidence item on which "present vs. missing" is unambiguous: a
present `source_uri` or `heading` is a non-empty string.  (Python's
`or`-truthiness makes the code treat a present-but-empty string like a
missing key, so the claim's wording only determines the behavior on such
items; every corpus document satisfies this.) -/
def WellFormedItem (e : EvidenceItem) : Prop :=
  e.source_uri ≠ some "" ∧ e.heading ≠ some ""

instance (e : EvidenceItem) : Decidable (WellFormedItem e) := by
  unfold WellFormedItem; infer_instance

end UDA

namespace UDA

/-! ## Theorems -/

/-- Claim C1: For every state reaching the supervisor stage: when
`validation_reports.faithful` is true the decision is `"answer"` regardless
of `uncertainty.overall` (the decision is a function of faithfulness alone,
so in particular also when `overall ≥ 0.8`); when faithful is false (or the
report is missing, whose `.get` default is false) the decision is `"dlq"`;
and the decision is always one of `"answer"`/`"dlq"`. -/
theorem supervisor_policy_claim (st : GraphState) :
    (supervisor_node st).decision
      = some (if faithfulOf st = true then "answer" else "dlq")
    ∧ ((supervisor_node st).decision = some "answer"
        ∨ (supervisor_node st).decision = some "dlq") := by
  unfold supervisor_node
  by_cases hf : faithfulOf st = true <;>
    by_cases hu : uncOf st < (8 : Rat)/10 <;>
      simp [hf, hu]

/-- Claim C8: `aggregate_uncertainty` returns `{overall := 0, spans := []}` on
the empty list and, on any list, the arithmetic mean of the spans' entropies
(read with default 0) with the spans unchanged; in particular a single span
of entropy 0.1 gives 0.1 and entropies 0.1, 1.2 give 0.65. -/
theorem aggregate_uncertainty_claim :
    aggregate_uncertainty [] = { overall := 0, spans := [] }
    ∧ (∀ spans : List Span,
        aggregate_uncertainty spans =
          if spans.isEmpty then { overall := 0, spans := [] }
          else
            { overall := (spans.map (fun s => s.entropy.getD 0)).sum / (spans.length : Rat)
              spans := spans })
    ∧ aggregate_uncertainty [⟨0, 10, some (1/10)⟩]
        = { overall := 1/10, spans := [⟨0, 10, some (1/10)⟩] }
    ∧ aggregate_uncertainty [⟨0, 10, some (1/10)⟩, ⟨0, 10, some (6/5)⟩]
        = { overall := 13/20, spans := [⟨0, 10, some (1/10)⟩, ⟨0, 10, some (6/5)⟩] } := by
  refine ⟨rfl, fun spans => ?_, by norm_num [aggregate_uncertainty], by norm_num [aggregate_uncertainty]⟩
  cases spans with
  | nil => rfl
  | cons s rest =>
    have hmax : max (s :: rest).length 1 = (s :: rest).length := by
      simp [Nat.max_eq_left, Nat.succ_le_succ]
    simp [aggregate_uncertainty, hmax]

/-- Claim C7: The router lowercases the query and classifies it: `synthesis`
when a synthesis keyword occurs as a substring, overridden to `policy` when a
policy keyword occurs (the policy check runs second and wins), else
`lookup` — equivalently, the policy-first form `intentSpec`; and the three
spec examples classify as stated. -/
theorem router_claim :
    (∀ st : GraphState,
        (router_node st).intent = some (intentSpec (lowerStr (st.user_query.getD ""))))
    ∧ (router_node (initState "why does X fail")).intent = some "synthesis"
    ∧ (router_node (initState "what is our GDPR policy")).intent = some "policy"
    ∧ (router_node (initState "list files")).intent = some "lookup" := by
  refine ⟨fun st => ?_, by decide, by decide, by decide⟩
  unfold router_node routerIntent intentSpec
  by_cases hs : SYNTH_KEYWORDS.any (fun k => pyInStr k (lowerStr (st.user_query.getD ""))) <;>
    by_cases hp : POLICY_KEYWORDS.any (fun k => pyInStr k (lowerStr (st.user_query.getD ""))) <;>
      simp [hs, hp]

/-- Claim C3: Whenever the retrieved evidence is empty (absent key or empty
list: the node reads it with `or []`), the answerer produces the fixed
abstention message — a non-empty string — as the draft answer, and empty
citations: no answer content is fabricated without evidence. -/
theorem answerer_abstention_claim (st : GraphState)
    (h : st.retrieved_evidence.getD [] = []) :
    (answerer_node st).draft_answer = some ABSTENTION
    ∧ ABSTENTION ≠ ""
    ∧ (answerer_node st).citations = some [] := by
  unfold answerer_node
  refine ⟨?_, by decide, ?_⟩ <;> simp [h]

/-- Witness for C3 at a concrete state with no retrieved evidence. -/
theorem answerer_abstention_claim_witness :
    (answerer_node (initState "anything")).draft_answer = some ABSTENTION
    ∧ ABSTENTION ≠ ""
    ∧ (answerer_node (initState "anything")).citations = some [] :=
  answerer_abstention_claim (initState "anything") rfl

/-- Claim C6: The sequential fallback runner (`SimplePipeline`) and the
graph-backend execution (modelled from §4.1: walk the compiled chain of
edges from the entry point, applying each stage in turn) produce the same
final state on every initial state: for this linear topology the fallback is
behaviorally equivalent to the graph-compiled runnable. -/
theorem fallback_equiv_graph_claim (st : GraphState) :
    graphInvoke builtGraph st = simplePipelineInvoke st := rfl

/-- Claim C2: Running the full pipeline with the sequential fallback runner on
an initial state (empty audit trail; any `user_query`) yields an audit trail
whose node-name sequence is exactly the fixed execution order of the eight
stages — in particular it has exactly 8 records. -/
theorem audit_trail_claim (st : GraphState) (h : st.audit_trail = []) :
    (simplePipelineInvoke st).audit_trail.map AuditRecord.node
      = ["router", "retriever", "ranker", "answerer",
         "uncertainty", "validator", "auditor", "supervisor"]
    ∧ (simplePipelineInvoke st).audit_trail.length = 8 := by
  unfold simplePipelineInvoke PIPELINE_NODES
  simp [router_node, retriever_node, ranker_node, answerer_node,
        uncertainty_node, validator_node, auditor_node, supervisor_node, h]

/-- Witness for C2 on the caller-constructed initial state for a concrete
query. -/
theorem audit_trail_claim_witness :
    (simplePipelineInvoke (initState "How does UDA handle uncertainty?")).audit_trail.map
        AuditRecord.node
      = ["router", "retriever", "ranker", "answerer",
         "uncertainty", "validator", "auditor", "supervisor"]
    ∧ (simplePipelineInvoke (initState "How does UDA handle uncertainty?")).audit_trail.length
        = 8 :=
  audit_trail_claim (initState "How does UDA handle uncertainty?") rfl

/-- On well-formed items the code's citation fragment agrees with the
claim's wording. -/
theorem citeFrag_eq_citeSpec (i : Nat) (e : EvidenceItem) (hw : WellFormedItem e) :
    citeFrag i e = citeSpec i e := by
  obtain ⟨h1, h3⟩ := hw
  unfold citeFrag citeSpec citeSrc srcSpec
  cases hsrc : e.source_uri with
  | some s =>
    have hs : ¬ s = "" := fun hs => h1 (by rw [hsrc, hs])
    cases hh : e.heading with
    | some h =>
      have hhne : ¬ h = "" := fun h0 => h3 (by rw [hh, h0])
      simp [hs, hhne]
    | none => simp [hs]
  | none =>
    cases hh : e.heading with
    | some h =>
      have hhne : ¬ h = "" := fun h0 => h3 (by rw [hh, h0])
      cases e.doc_id <;> simp [hhne, Option.getD]
    | none =>
      cases e.doc_id <;> simp [Option.getD]

/-- On well-formed items the code's citation list agrees with the claim's
wording, at every starting index. -/
theorem formatCitesFrom_eq_spec (l : List EvidenceItem) (i : Nat)
    (hw : ∀ e ∈ l, WellFormedItem e) :
    formatCitesFrom i l = citesSpecFrom i l := by
  induction l generalizing i with
  | nil => rfl
  | cons e rest ih =>
    have he := hw e (by simp)
    have hrest : ∀ x ∈ rest, WellFormedItem x := fun x hx => hw x (by simp [hx])
    simp [formatCitesFrom, citesSpecFrom, citeFrag_eq_citeSpec i e he, ih _ hrest]

theorem citesSpecFrom_length (l : List EvidenceItem) (i : Nat) :
    (citesSpecFrom i l).length = l.length := by
  induction l generalizing i with
  | nil => rfl
  | cons e rest ih => simp [citesSpecFrom, ih]

/-- Claim C4: On any state with non-empty retrieved evidence (of well-formed
items, so that present/missing is unambiguous), the answerer's citations are
exactly the claim-side strings `"[i] src"` (1-based, optionally suffixed
with `" :: heading"`) for the first `min 2 (len evidence)` items, one per
quoted item in quotation order, so their count is `min 2 (len evidence)`;
and the draft answer quotes the text of those items verbatim, in ranked
order (the first quoted text precedes the second in the draft). -/
theorem answerer_citation_claim (st : GraphState)
    (hne : st.retrieved_evidence.getD [] ≠ [])
    (hwf : ∀ e ∈ st.retrieved_evidence.getD [], WellFormedItem e) :
    (answerer_node st).citations
        = some (citesSpecFrom 1 ((st.retrieved_evidence.getD []).take 2))
    ∧ (citesSpecFrom 1 ((st.retrieved_evidence.getD []).take 2)).length
        = min 2 (st.retrieved_evidence.getD []).length
    ∧ (∀ e ∈ (st.retrieved_evidence.getD []).take 2,
        ∃ pre post, ((answerer_node st).draft_answer.getD "").data
          = pre ++ e.text.data ++ post)
    ∧ (∀ e1 e2 rest, st.retrieved_evidence.getD [] = e1 :: e2 :: rest →
        ∃ p1 p2 p3, ((answerer_node st).draft_answer.getD "").data
          = p1 ++ e1.text.data ++ p2 ++ e2.text.data ++ p3) := by
  rcases hev : st.retrieved_evidence.getD [] with _ | ⟨e1, rest⟩
  · exact absurd hev hne
  · have hwf' : ∀ e ∈ (e1 :: rest).take 2, WellFormedItem e := by
      intro e he
      exact hwf e (by rw [hev]; exact List.mem_of_mem_take he)
    have hcit : (answerer_node st).citations = some (format_citations ((e1 :: rest).take 2)) := by
      unfold answerer_node
      simp [hev]
    have hdraft : (answerer_node st).draft_answer
        = some (groundedDraft (st.user_query.getD "") (e1 :: rest)) := by
      unfold answerer_node
      simp [hev]
    refine ⟨?_, ?_, ?_, ?_⟩
    · rw [hcit, format_citations, formatCitesFrom_eq_spec _ _ hwf']
    · rw [citesSpecFrom_length]
      simp only [List.length_take, List.length_cons]
    · intro e he
      rw [hdraft]
      cases rest with
      | nil =>
        simp only [List.take, List.mem_singleton] at he
        subst he
        refine ⟨("Q: " ++ st.user_query.getD "").data ++ "\n".data
          ++ "A (grounded):".data ++ "\n".data ++ "- ".data, [], ?_⟩
        simp [groundedDraft, joinNL]
      | cons e2 rest2 =>
        simp only [List.take, List.mem_cons, List.not_mem_nil, or_false] at he
        rcases he with rfl | rfl
        · refine ⟨("Q: " ++ st.user_query.getD "").data ++ "\n".data
            ++ "A (grounded):".data ++ "\n".data ++ "- ".data,
            "\n".data ++ "- ".data ++ e2.text.data, ?_⟩
          simp [groundedDraft, joinNL]
        · refine ⟨("Q: " ++ st.user_query.getD "").data ++ "\n".data
            ++ "A (grounded):".data ++ "\n".data ++ "- ".data ++ e1.text.data
            ++ "\n".data ++ "- ".data, [], ?_⟩
          simp [groundedDraft, joinNL]
    · intro f1 f2 rest2 heq
      injection heq with hh ht
      subst hh
      subst ht
      rw [hdraft]
      refine ⟨("Q: " ++ st.user_query.getD "").data ++ "\n".data
        ++ "A (grounded):".data ++ "\n".data ++ "- ".data,
        "\n".data ++ "- ".data, [], ?_⟩
      simp [groundedDraft, joinNL]

/-- A concrete state holding the two corpus documents as evidence, used to
witness C4. -/
def citeDemoState : GraphState :=
  { initState "demo" with retrieved_evidence := some CORPUS }

/-- Witness for C4: the two corpus documents as retrieved evidence. -/
theorem answerer_citation_claim_witness :
    (citeDemoState.retrieved_evidence.getD [] ≠ []
      ∧ ∀ e ∈ citeDemoState.retrieved_evidence.getD [], WellFormedItem e)
    ∧ ((answerer_node citeDemoState).citations
        = some (citesSpecFrom 1 ((citeDemoState.retrieved_evidence.getD []).take 2))
      ∧ (citesSpecFrom 1 ((citeDemoState.retrieved_evidence.getD []).take 2)).length
          = min 2 (citeDemoState.retrieved_evidence.getD []).length
      ∧ (∀ e ∈ (citeDemoState.retrieved_evidence.getD []).take 2,
          ∃ pre post, ((answerer_node citeDemoState).draft_answer.getD "").data
            = pre ++ e.text.data ++ post)
      ∧ (∀ e1 e2 rest, citeDemoState.retrieved_evidence.getD [] = e1 :: e2 :: rest →
          ∃ p1 p2 p3, ((answerer_node citeDemoState).draft_answer.getD "").data
            = p1 ++ e1.text.data ++ p2 ++ e2.text.data ++ p3)) :=
  ⟨⟨by decide, by decide⟩,
    answerer_citation_claim citeDemoState (by decide) (by decide)⟩

/-- Claim C5: The retriever is a deterministic (pure) function of query and
corpus that: returns empty evidence on the empty query; returns at most
`k = 5` items; returns exactly the corpus documents whose score — the sum of
case-insensitive substring occurrence counts of the query's
whitespace-tokens of length > 2 — is positive, each annotated with that
numeric score; sorted by descending score; and on ties the original corpus
order is preserved (for every score value, the returned documents carrying
it form a sublist of the corpus in corpus order). -/
theorem retriever_claim (q : String) :
    simple_keyword_match "" 5 = []
    ∧ (simple_keyword_match q 5).length ≤ 5
    ∧ (∀ r ∈ simple_keyword_match q 5, ∃ d ∈ CORPUS,
        0 < docScore (termsOf q) d.text
        ∧ r = withScore d (docScore (termsOf q) d.text))
    ∧ (∀ d ∈ CORPUS, 0 < docScore (termsOf q) d.text →
        withScore d (docScore (termsOf q) d.text) ∈ simple_keyword_match q 5)
    ∧ List.Pairwise (fun a b => b.score.getD 0 ≤ a.score.getD 0) (simple_keyword_match q 5)
    ∧ (∀ s : Rat,
        (((simple_keyword_match q 5).filter (fun r => decide (r.score = some s))).map
            (fun r => { r with score := none })).Sublist CORPUS) := by
  refine ⟨rfl, ?_⟩
  by_cases hq : q = ""
  · subst hq
    have hres : simple_keyword_match "" 5 = [] := rfl
    refine ⟨by simp [hres], by simp [hres], ?_, by simp [hres], by simp [hres]⟩
    intro d hd hpos
    have h0 : docScore (termsOf "") d.text = 0 := rfl
    omega
  · set n1 := docScore (termsOf q) corpusDoc1.text with hn1
    set n2 := docScore (termsOf q) corpusDoc2.text with hn2
    by_cases h1 : 0 < n1 <;> by_cases h2 : 0 < n2
    · -- both documents score positively
      by_cases hc : n2 ≤ n1
      · have hres : simple_keyword_match q 5
            = [withScore corpusDoc1 n1, withScore corpusDoc2 n2] := by
          simp [simple_keyword_match, hq, CORPUS, ← hn1, ← hn2, h1, h2,
                sortDesc, insertDesc, hc]
        refine ⟨by simp [hres], ?_, ?_, ?_, ?_⟩
        · intro r hr
          rw [hres] at hr
          simp only [List.mem_cons, List.not_mem_nil, or_false] at hr
          rcases hr with rfl | rfl
          · exact ⟨corpusDoc1, by simp [CORPUS], h1, rfl⟩
          · exact ⟨corpusDoc2, by simp [CORPUS], h2, rfl⟩
        · intro d hd hpos
          simp only [CORPUS, List.mem_cons, List.not_mem_nil, or_false] at hd
          rcases hd with rfl | rfl <;> rw [← hn1] at * <;> rw [← hn2] at * <;>
            simp [hres]
        · rw [hres]
          refine List.Pairwise.cons ?_ (List.pairwise_singleton _ _)
          intro r hr
          rcases List.mem_singleton.mp hr with rfl
          simp only [withScore, Option.getD_some]
          exact_mod_cast hc
        · intro s
          rw [hres]
          by_cases hs1 : ((n1 : Rat)) = s <;> by_cases hs2 : ((n2 : Rat)) = s <;>
            simp [withScore, List.filter, hs1, hs2] <;> decide
      · have hlt : n1 < n2 := Nat.lt_of_not_le hc
        have hres : simple_keyword_match q 5
            = [withScore corpusDoc2 n2, withScore corpusDoc1 n1] := by
          simp [simple_keyword_match, hq, CORPUS, ← hn1, ← hn2, h1, h2,
                sortDesc, insertDesc, hc]
        refine ⟨by simp [hres], ?_, ?_, ?_, ?_⟩
        · intro r hr
          rw [hres] at hr
          simp only [List.mem_cons, List.not_mem_nil, or_false] at hr
          rcases hr with rfl | rfl
          · exact ⟨corpusDoc2, by simp [CORPUS], h2, rfl⟩
          · exact ⟨corpusDoc1, by simp [CORPUS], h1, rfl⟩
        · intro d hd hpos
          simp only [CORPUS, List.mem_cons, List.not_mem_nil, or_false] at hd
          rcases hd with rfl | rfl <;> rw [← hn1] at * <;> rw [← hn2] at * <;>
            simp [hres]
        · rw [hres]
          refine List.Pairwise.cons ?_ (List.pairwise_singleton _ _)
          intro r hr
          rcases List.mem_singleton.mp hr with rfl
          simp only [withScore, Option.getD_some]
          exact_mod_cast Nat.le_of_lt hlt
        · intro s
          rw [hres]
          by_cases hs1 : ((n1 : Rat)) = s <;> by_cases hs2 : ((n2 : Rat)) = s <;>
            first
            | (exact absurd (Nat.cast_injective (hs1.trans hs2.symm) : n1 = n2)
                (by omega))
            | (simp [withScore, List.filter, hs1, hs2] <;> decide)
    · -- only the first document scores positively
      have hres : simple_keyword_match q 5 = [withScore corpusDoc1 n1] := by
        simp [simple_keyword_match, hq, CORPUS, ← hn1, ← hn2, h1, h2,
              sortDesc, insertDesc]
      refine ⟨by simp [hres], ?_, ?_, ?_, ?_⟩
      · intro r hr
        rw [hres] at hr
        simp only [List.mem_cons, List.not_mem_nil, or_false] at hr
        rcases hr with rfl
        exact ⟨corpusDoc1, by simp [CORPUS], h1, rfl⟩
      · intro d hd hpos
        simp only [CORPUS, List.mem_cons, List.not_mem_nil, or_false] at hd
        rcases hd with rfl | rfl <;> rw [← hn1] at * <;> rw [← hn2] at *
        · simp [hres]
        · omega
      · rw [hres]
        exact List.pairwise_singleton _ _
      · intro s
        rw [hres]
        by_cases hs1 : ((n1 : Rat)) = s <;>
          [(simp [withScore, List.filter, hs1]; decide); simp [withScore, List.filter, hs1]]
    · -- only the second document scores positively
      have hres : simple_keyword_match q 5 = [withScore corpusDoc2 n2] := by
        simp [simple_keyword_match, hq, CORPUS, ← hn1, ← hn2, h1, h2,
              sortDesc, insertDesc]
      refine ⟨by simp [hres], ?_, ?_, ?_, ?_⟩
      · intro r hr
        rw [hres] at hr
        simp only [List.mem_cons, List.not_mem_nil, or_false] at hr
        rcases hr with rfl
        exact ⟨corpusDoc2, by simp [CORPUS], h2, rfl⟩
      · intro d hd hpos
        simp only [CORPUS, List.mem_cons, List.not_mem_nil, or_false] at hd
        rcases hd with rfl | rfl <;> rw [← hn1] at * <;> rw [← hn2] at *
        · omega
        · simp [hres]
      · rw [hres]
        exact List.pairwise_singleton _ _
      · intro s
        rw [hres]
        by_cases hs2 : ((n2 : Rat)) = s <;>
          [(simp [withScore, List.filter, hs2]; decide); simp [withScore, List.filter, hs2]]
    · -- neither document scores positively
      have hres : simple_keyword_match q 5 = [] := by
        simp [simple_keyword_match, hq, CORPUS, ← hn1, ← hn2, h1, h2, sortDesc]
      refine ⟨by simp [hres], by simp [hres], ?_, by simp [hres], by simp [hres]⟩
      intro d hd hpos
      simp only [CORPUS, List.mem_cons, List.not_mem_nil, or_false] at hd
      rcases hd with rfl | rfl <;> rw [← hn1] at * <;> rw [← hn2] at * <;> omega

/-- DLQ file content is line-complete: empty or newline-terminated.  Every
`enqueue` maintains this. -/
def LineComplete (l : List Char) : Prop := l = [] ∨ l.getLast? = some '\n'

/-- Splitting distributes over appending to newline-terminated content. -/
theorem splitLinesAux_append (p : List Char) :
    p.getLast? = some '\n' →
    ∀ cur s, splitLinesAux cur (p ++ s) = splitLinesAux cur p ++ splitLinesAux [] s := by
  induction p with
  | nil => intro hp; simp at hp
  | cons c p' ih =>
    intro hp cur s
    by_cases hc : c = '\n'
    · subst hc
      cases p' with
      | nil => simp [splitLinesAux]
      | cons d p'' =>
        have hp' : (d :: p'').getLast? = some '\n' := by
          rwa [List.getLast?_cons_cons] at hp
        have e1 : ∀ (cur2 l : List Char),
            splitLinesAux cur2 ('\n' :: l) = cur2.reverse :: splitLinesAux [] l := by
          intro cur2 l
          simp [splitLinesAux]
        have hrec := ih hp' [] s
        simp only [List.cons_append] at hrec ⊢
        rw [e1 cur, hrec, e1 cur]
        simp
    · cases p' with
      | nil =>
        simp only [List.getLast?_singleton, Option.some.injEq] at hp
        exact absurd hp hc
      | cons d p'' =>
        have hp' : (d :: p'').getLast? = some '\n' := by
          rwa [List.getLast?_cons_cons] at hp
        have e2 : ∀ (cur2 l : List Char),
            splitLinesAux cur2 (c :: l) = splitLinesAux (c :: cur2) l := by
          intro cur2 l
          simp [splitLinesAux, hc]
        have hrec := ih hp' (c :: cur) s
        simp only [List.cons_append] at hrec ⊢
        rw [e2 cur, hrec, e2 cur]

/-- A single newline-terminated line splits as itself. -/
theorem splitLinesAux_single (xs : List Char) :
    '\n' ∉ xs → ∀ cur, splitLinesAux cur (xs ++ ['\n']) = [cur.reverse ++ xs] := by
  induction xs with
  | nil => intro _ cur; simp [splitLinesAux]
  | cons c xs' ih =>
    intro hx cur
    have hc : ¬ (c = '\n') := by
      intro h
      subst h
      exact hx (List.mem_cons_self _ _)
    have hx' : '\n' ∉ xs' := fun h => hx (List.mem_cons_of_mem _ h)
    simp [splitLinesAux, hc, ih hx' (c :: cur)]

/-- Streaming after one enqueue appends exactly the enqueued record, given
line-complete prior content and a well-behaved codec on the record. -/
theorem dlqStream_enqueue {α : Type} (encode : α → String) (decode : String → α)
    (q : FileDLQ) (hq : LineComplete q.content) (r : α)
    (hr1 : decode (encode r) = r) (hr2 : '\n' ∉ (encode r).data)
    (hr3 : hasNonWs (encode r).data = true) :
    dlqStream decode (dlqEnqueue encode q r) = dlqStream decode q ++ [r] := by
  have hmk : String.mk (encode r).data = encode r := rfl
  unfold dlqStream dlqEnqueue
  rcases hq with hq | hq
  · rw [hq]
    simp only [List.nil_append]
    rw [splitLinesAux_single _ hr2 []]
    simp [hq, splitLinesAux, hr3, hmk, hr1]
  · rw [splitLinesAux_append q.content hq [] ((encode r).data ++ ['\n']),
        splitLinesAux_single _ hr2 []]
    simp [hr3, hmk, hr1]

/-- Streaming after a sequence of enqueues appends the records in order. -/
theorem dlqStream_foldl {α : Type} (encode : α → String) (decode : String → α) :
    ∀ (rs : List α) (q : FileDLQ), LineComplete q.content →
      (∀ r ∈ rs, decode (encode r) = r ∧ '\n' ∉ (encode r).data
        ∧ hasNonWs (encode r).data = true) →
      dlqStream decode (rs.foldl (dlqEnqueue encode) q) = dlqStream decode q ++ rs := by
  intro rs
  induction rs with
  | nil =>
    intro q _ _
    simp
  | cons r rs' ih =>
    intro q hq h
    obtain ⟨h1, h2, h3⟩ := h r (by simp)
    have hq' : LineComplete (dlqEnqueue encode q r).content := by
      right
      simp [dlqEnqueue, ← List.append_assoc, List.getLast?_concat]
    rw [List.foldl_cons,
        ih (dlqEnqueue encode q r) hq' (fun x hx => h x (by simp [hx])),
        dlqStream_enqueue encode decode q hq r h1 h2 h3]
    simp

/-- Claim C9: Modelled from the spec for the JSON codec (the external `json`
library): for every sequence of serializable records — records on which the
codec is inverse, single-line and non-blank, as `json.dumps`/`json.loads`
guarantee — enqueueing them one by one into a fresh DLQ and then streaming
yields the same records, structurally equal and in insertion order (one
record per non-blank line). -/
theorem dlq_roundtrip_claim {α : Type} (encode : α → String) (decode : String → α)
    (records : List α)
    (h : ∀ r ∈ records, decode (encode r) = r ∧ '\n' ∉ (encode r).data
          ∧ hasNonWs (encode r).data = true) :
    dlqStream decode (records.foldl (dlqEnqueue encode) FileDLQ.new) = records := by
  rw [dlqStream_foldl encode decode records FileDLQ.new (Or.inl rfl) h]
  rfl

/-- Witness for C9: three distinct string records with the identity codec. -/
theorem dlq_roundtrip_claim_witness :
    (∀ r ∈ (["alpha", "beta", "gamma"] : List String),
        (fun s => s) ((fun s => s) r) = r ∧ '\n' ∉ ((fun s => s) r).data
          ∧ hasNonWs ((fun s => s) r).data = true)
    ∧ dlqStream (fun s => s)
        ((["alpha", "beta", "gamma"] : List String).foldl
          (dlqEnqueue (fun s => s)) FileDLQ.new)
      = ["alpha", "beta", "gamma"] :=
  ⟨by decide, dlq_roundtrip_claim (fun s => s) (fun s => s) _ (by decide)⟩

theorem char_toNat_ofNat (n : Nat) (h : n < 55296) : (Char.ofNat n).toNat = n := by
  rw [Char.ofNat, dif_pos (Or.inl h)]
  rfl

theorem char_isWs_false_of_between (c : Char) (h65 : 65 ≤ c.toNat)
    (_h122 : c.toNat ≤ 122) : c.isWhitespace = false := by
  have hs : c ≠ ' ' := fun h => absurd (h ▸ h65) (by decide)
  have ht : c ≠ '\t' := fun h => absurd (h ▸ h65) (by decide)
  have hr : c ≠ '\r' := fun h => absurd (h ▸ h65) (by decide)
  have hn : c ≠ '\n' := fun h => absurd (h ▸ h65) (by decide)
  simp [Char.isWhitespace, hs, ht, hr, hn]

/-- Lowercasing (the ASCII case map of Python `str.lower` on the program's
data) never turns a whitespace character into a non-whitespace one or vice
versa. -/
theorem isWhitespace_toLower (c : Char) :
    (Char.toLower c).isWhitespace = c.isWhitespace := by
  have hdef : Char.toLower c
      = if c.toNat ≥ 65 ∧ c.toNat ≤ 90 then Char.ofNat (c.toNat + 32) else c := rfl
  rw [hdef]
  by_cases h : c.toNat ≥ 65 ∧ c.toNat ≤ 90
  · obtain ⟨ha, hb⟩ := h
    rw [if_pos ⟨ha, hb⟩]
    have hval : (Char.ofNat (c.toNat + 32)).toNat = c.toNat + 32 :=
      char_toNat_ofNat _ (by omega)
    rw [char_isWs_false_of_between _ (by omega) (by omega),
        char_isWs_false_of_between c (by omega) (by omega)]
  · rw [if_neg h]

/-- Whitespace-splitting commutes with character-wise lowercasing. -/
theorem splitWsAux_toLower (l : List Char) :
    ∀ cur, splitWsAux (cur.map Char.toLower) (l.map Char.toLower)
      = (splitWsAux cur l).map (fun t => lowerStr t) := by
  induction l with
  | nil =>
    intro cur
    cases cur with
    | nil => rfl
    | cons c cur' =>
      simp [splitWsAux, lowerStr, List.map_reverse]
  | cons c l' ih =>
    intro cur
    by_cases hw : c.isWhitespace
    · have hw2 : (Char.toLower c).isWhitespace = true := by
        rw [isWhitespace_toLower]
        exact hw
      cases cur with
      | nil => simpa [splitWsAux, hw, hw2] using ih []
      | cons d cur' =>
        have haux : ∀ xs : List Char,
            lowerStr (String.mk xs) = String.mk (xs.map Char.toLower) := fun _ => rfl
        have ih0 := ih []
        simp only [List.map_nil] at ih0
        simp [splitWsAux, hw, hw2, haux, List.map_reverse, ih0]
    · have hw2 : (Char.toLower c).isWhitespace = false := by
        rw [isWhitespace_toLower]
        simpa using hw
      simpa [splitWsAux, hw, hw2] using ih (c :: cur)

/-- If no raw whitespace-token of the query is longer than two characters,
the retriever's term list is empty. -/
theorem termsOf_eq_nil (q : String) (h : ∀ t ∈ pySplitWs q, t.length ≤ 2) :
    termsOf q = [] := by
  unfold termsOf
  rw [List.filter_eq_nil_iff]
  intro t ht
  have hmap : pySplitWs (lowerStr q) = (pySplitWs q).map (fun t => lowerStr t) :=
    splitWsAux_toLower q.data []
  rw [hmap] at ht
  obtain ⟨t0, ht0, rfl⟩ := List.mem_map.mp ht
  have hlen : (lowerStr t0).length = t0.length := by
    show (String.mk (t0.data.map Char.toLower)).length = t0.length
    rw [String.length_mk, List.length_map]
    rfl
  have := h t0 ht0
  simp only [decide_eq_true_eq, not_lt, hlen]
  omega

/-- With no usable search terms every document scores zero, so retrieval is
empty. -/
theorem smk_eq_nil_of_no_terms (q : String) (h : termsOf q = []) :
    simple_keyword_match q 5 = [] := by
  unfold simple_keyword_match
  by_cases hq : q = ""
  · simp [hq]
  · simp [hq, h, CORPUS, docScore, sortDesc]

/-- Claim C10: For every query none of whose whitespace-separated tokens is
longer than two characters (e.g. `"is it ok"`), the retriever returns empty
evidence even though the query is non-empty, and a full pipeline run (with
the sequential fallback runner) therefore abstains: the draft answer is the
fixed abstention message, citations are empty, the validator reports
`faithful = false`, and the supervisor routes to the DLQ. -/
theorem short_query_dlq_claim (q : String)
    (h : ∀ t ∈ pySplitWs q, t.length ≤ 2) :
    simple_keyword_match q 5 = []
    ∧ (simplePipelineInvoke (initState q)).draft_answer = some ABSTENTION
    ∧ (simplePipelineInvoke (initState q)).citations = some []
    ∧ (simplePipelineInvoke (initState q)).validation_reports
        = some { faithful := false, checks := ["stub"] }
    ∧ (simplePipelineInvoke (initState q)).decision = some "dlq" := by
  have hsmk := smk_eq_nil_of_no_terms q (termsOf_eq_nil q h)
  refine ⟨hsmk, ?_, ?_, ?_, ?_⟩ <;>
    simp [simplePipelineInvoke, PIPELINE_NODES, router_node, retriever_node,
      ranker_node, answerer_node, uncertainty_node, validator_node,
      auditor_node, supervisor_node, initState, hsmk, faithfulOf, uncOf,
      aggregate_uncertainty]

/-- Witness for C10 at the spec's example query `"is it ok"`. -/
theorem short_query_dlq_claim_witness :
    (∀ t ∈ pySplitWs "is it ok", t.length ≤ 2)
    ∧ (simple_keyword_match "is it ok" 5 = []
      ∧ (simplePipelineInvoke (initState "is it ok")).draft_answer = some ABSTENTION
      ∧ (simplePipelineInvoke (initState "is it ok")).citations = some []
      ∧ (simplePipelineInvoke (initState "is it ok")).validation_reports
          = some { faithful := false, checks := ["stub"] }
      ∧ (simplePipelineInvoke (initState "is it ok")).decision = some "dlq") :=
  ⟨by decide, short_query_dlq_claim "is it ok" (by decide)⟩

end UDA
